import Mathlib

/-!
Shallow embedding of the terminal Tic-Tac-Toe program (`src/main.py`) and
proofs about it.  Python strings are modelled as Lean `String`, the sqlite
tables as association lists, the `Board.board` dict as an insertion-ordered
association list, and the interactive round loop (`Game.start`) as a
recursive function consuming an explicit list of raw input strings.
-/

set_option autoImplicit false

namespace TicTacToe

/-! ### String helpers from the source

`termcolor.colored` wraps text in ANSI escape sequences; the program calls it
through the small helper functions below.  Only `blueify`, `redify` and
`boldify` take part in game logic (marker values), so those are embedded with
the concrete ANSI codes `colored` produces. -/

/-- Helper `blueify(text)`: `colored(text, "blue")`. -/
def blueify (text : String) : String := "\x1b[34m" ++ text ++ "\x1b[0m"

/-- Helper `redify(text)`: `colored(text, "red")`. -/
def redify (text : String) : String := "\x1b[31m" ++ text ++ "\x1b[0m"

/-- Helper `boldify(text)`: `colored(text, attrs=["bold"])`. -/
def boldify (text : String) : String := "\x1b[1m" ++ text ++ "\x1b[0m"

/-- The marker value the program assigns to the X player:
`blueify(boldify("X"))` (lines 348 and 552 of `main.py`). -/
def xMarker : String := blueify (boldify "X")

/-- The marker value the program assigns to the O player:
`redify(boldify("O"))` (lines 348 and 553 of `main.py`). -/
def oMarker : String := redify (boldify "O")

/-- Python's `str.lower()` restricted to the character ranges the program
uses (ASCII): lowercase every character. -/
def pyLower (s : String) : String := ⟨s.data.map Char.toLower⟩

/-- Python's `str.isdigit()` on ASCII input: true iff the string is nonempty
and every character is a decimal digit. -/
def pyIsDigit (s : String) : Bool := !s.data.isEmpty && s.data.all Char.isDigit

/-- Accumulator pass of `int(...)` over a digit string. -/
def digitsToNat : List Char → Nat → Nat
  | [], acc => acc
  | c :: cs, acc => digitsToNat cs (acc * 10 + (c.toNat - 48))

/-- Python's `int(s)` for the digit-only strings that pass `isdigit`. -/
def pyInt (s : String) : Nat := digitsToNat s.data 0

/-- One character of Python's `str.title()`: a letter is uppercased when the
previous character was not a letter, lowercased otherwise; non-letters pass
through. -/
def titleChar (prevAlpha : Bool) (c : Char) : Char :=
  if c.isAlpha then (if prevAlpha then c.toLower else c.toUpper) else c

/-- Character-list pass of `str.title()`, threading whether the previous
character was alphabetic. -/
def pyTitleAux : Bool → List Char → List Char
  | _, [] => []
  | prevAlpha, c :: cs => titleChar prevAlpha c :: pyTitleAux c.isAlpha cs

/-- Python's `str.title()` on ASCII input: the first letter of every maximal
alphabetic run is uppercased, the other letters are lowercased, and
non-letter characters (whitespace included) are kept as they are. -/
def pyTitle (s : String) : String := ⟨pyTitleAux false s.data⟩

/-! ### Winning combinations (`winning_combos`, lines 34–43) -/

/-- The global tuple `winning_combos`, in its source order: three rows, three
columns, two diagonals. -/
def winning_combos : List (Nat × Nat × Nat) :=
  [(1, 2, 3), (4, 5, 6), (7, 8, 9),
   (1, 4, 7), (2, 5, 8), (3, 6, 9),
   (1, 5, 9), (3, 5, 7)]

/-! ### The persistence store

`tictactoe.db` has two tables.  `scores` (`name` unique key, `score`) is an
association list from player name to win count; `history` is an append-only
list of `(player1, player2, winner-or-null, timestamp)` rows. -/

/-- A row list of the `scores` table. -/
abbrev ScoresTable := List (String × Nat)

/-- A row of the `history` table: `(player1, player2, winner, timestamp)`
with `winner = none` recording a draw. -/
abbrev HistoryRow := String × String × Option String × Nat

/-- Query `INSERT INTO scores VALUES (?, 1)`: sqlite raises an `IntegrityError`
(modelled as `Except.error ()`) exactly when a row with the same unique
`name` key already exists, otherwise it appends the new `(name, 1)` row. -/
def scoresInsert (tbl : ScoresTable) (name : String) : Except Unit ScoresTable :=
  if name ∈ tbl.map Prod.fst then Except.error () else Except.ok (tbl ++ [(name, 1)])

/-- Query `UPDATE scores SET score = score + 1 WHERE name = ?`: adds one to the
count of every row whose key is `name`. -/
def scoresUpdate (tbl : ScoresTable) (name : String) : ScoresTable :=
  tbl.map (fun r => if r.1 = name then (r.1, r.2 + 1) else r)

/-- The `try`/`except sql.IntegrityError` block of `Player.add_score`
(lines 163–168): attempt the insert, fall back to the update when the insert
hits the uniqueness conflict.  No error escapes. -/
def scoresUpsert (tbl : ScoresTable) (name : String) : ScoresTable :=
  match scoresInsert tbl name with
  | Except.ok tbl' => tbl'
  | Except.error _ => scoresUpdate tbl name

/-! ### `Player` (lines 136–168) -/

/-- The `Player` object: `__init__` stores `name.title()`, the marker string,
an empty move list and a zero score. -/
structure Player where
  name : String
  marker : String
  moves : List Nat
  score : Nat
deriving DecidableEq, Repr

/-- Constructor `Player(name, marker)`: `self.name = name.title()`, `self.marker =
marker`, `self.moves = []`, `self.score = 0`.  Note there is no `.strip()`:
surrounding whitespace survives. -/
def Player.init (name marker : String) : Player :=
  { name := pyTitle name, marker := marker, moves := [], score := 0 }

/-- Method `Player.add_move(move)`: append the cell, then `self.moves.sort()` keeps
the list ascending. -/
def Player.add_move (p : Player) (move : Nat) : Player :=
  { p with moves := List.insertionSort (· ≤ ·) (p.moves ++ [move]) }

/-- Method `Player.reset_moves()`. -/
def Player.reset_moves (p : Player) : Player := { p with moves := [] }

/-- Method `Player.add_score()`: `self.score += 1` in memory, then the scores-table
upsert keyed by `self.name`; returns the updated player and table. -/
def Player.add_score (p : Player) (tbl : ScoresTable) : Player × ScoresTable :=
  ({ p with score := p.score + 1 }, scoresUpsert tbl p.name)

/-- The engine-layer default applied in `main` (lines 549–550):
`name1 if name1 else "Player 1"` — only the exactly-empty string is falsy. -/
def defaultName (raw dflt : String) : String := if raw = "" then dflt else raw

/-! ### `Board` (lines 171–228) -/

/-- The `Board` object; the Python dict `self.board` is an insertion-ordered
association list from occupied cell to the occupying marker string. -/
structure Board where
  board : List (Nat × String)
deriving DecidableEq, Repr

/-- The occupied cells, in insertion order (the dict's key view). -/
def Board.keys (b : Board) : List Nat := b.board.map Prod.fst

/-- Method `Board.add_move(move, player)` (lines 177–184): if the cell is already a
key of the dict, return `False` and change nothing; otherwise record
`move → player.marker`, call `player.add_move(move)`, and return `True`.
The result carries the returned Bool, the board and the (possibly updated)
player object. -/
def Board.add_move (b : Board) (move : Nat) (p : Player) : Bool × Board × Player :=
  if move ∈ b.keys then (false, b, p)
  else (true, ⟨b.board ++ [(move, p.marker)]⟩, p.add_move move)

/-- Method `Board.is_full()` (lines 186–187): `len(self.board) == 9`. -/
def Board.is_full (b : Board) : Bool := b.board.length == 9

/-- A Python value returned by `Board.check_winner`: either a bare boolean
(`return False`, line 228) or a pair of a boolean and an optional combo
(`return True, combo`, line 226). -/
inductive PyRet where
  | boolOnly : Bool → PyRet
  | pair : Bool → Option (Nat × Nat × Nat) → PyRet
deriving DecidableEq, Repr

/-- Python truthiness of such a value: a bare boolean is its own truth value;
a tuple is truthy because it is nonempty (so even `(False, None)` would be
truthy).  `Game.start` tests the result with `if winner:`. -/
def PyRet.truthy : PyRet → Bool
  | PyRet.boolOnly b => b
  | PyRet.pair _ _ => true

/-- Condition `all(move in player.moves for move in combo)` (line 225). -/
def comboSat (moves : List Nat) (c : Nat × Nat × Nat) : Bool :=
  decide (c.1 ∈ moves) && decide (c.2.1 ∈ moves) && decide (c.2.2 ∈ moves)

/-- The `for combo in winning_combos` loop of `check_winner`: the first
satisfied combination yields `(True, combo)`, falling off the loop yields the
bare `False`. -/
def check_winner_from : List (Nat × Nat × Nat) → List Nat → PyRet
  | [], _ => PyRet.boolOnly false
  | c :: cs, moves =>
    if comboSat moves c then PyRet.pair true (some c) else check_winner_from cs moves

/-- Method `Board.check_winner(player)` (lines 222–228), a static method reading
only `player.moves`. -/
def Board.check_winner (p : Player) : PyRet :=
  check_winner_from winning_combos p.moves

/-! ### `dbopen` (lines 120–133) and Python's `with` statement -/

/-- The observable state of one sqlite connection. -/
structure Conn where
  committed : Bool
  closed : Bool
deriving DecidableEq, Repr

/-- Call `self.conn.commit()`. -/
def Conn.commit (c : Conn) : Conn := { c with committed := true }

/-- Call `self.conn.close()`. -/
def Conn.close (c : Conn) : Conn := { c with closed := true }

/-- Method `dbopen.__enter__`: `sql.connect(...)` yields a fresh connection. -/
def dbopenEnter : Conn := { committed := false, closed := false }

/-- Method `dbopen.__exit__(exc_class, exc, traceback)` (lines 131–133): commit then
close, and implicitly `return None` — the second component is the suppress
flag Python reads from the return value, and `None` is falsy, so exceptions
are never swallowed. -/
def dbopenExit (c : Conn) : Conn × Bool := (c.commit.close, false)

/-- Python's `with` statement, specialised to a `Conn`-managed resource: run
the body; whether it returns normally or raises, call the exit handler; a
raised exception is re-raised unless the handler's return value is truthy.
A suppressed exception makes the `with` statement produce no value (`none`). -/
def pyWith {α : Type} (enter : Conn) (exitf : Conn → Conn × Bool)
    (body : Conn → Except String α × Conn) : Except String (Option α) × Conn :=
  let r := body enter
  let e := exitf r.2
  match r.1 with
  | Except.ok a => (Except.ok (some a), e.1)
  | Except.error exc => if e.2 then (Except.ok none, e.1) else (Except.error exc, e.1)

/-- Statement `with dbopen(TTT_DB_PATH) as cursor: <body>`. -/
def withDbopen {α : Type} (body : Conn → Except String α × Conn) :
    Except String (Option α) × Conn :=
  pyWith dbopenEnter dbopenExit body

/-! ### `Game` (lines 231–353)

A `Game` always holds exactly two players (`main` sets `game.players =
[player1, player2]` and the rematch branch rebuilds a two-element list), so
the `players` list is embedded as the two fields `p1`, `p2`; the persistent
store the game writes to is carried alongside as `scores` and `history`.
The `itertools.cycle(self.players)` iterator is a Bool that selects the
current player (`false` = `players[0]`) and flips after each placed move. -/

structure GameState where
  board : Board
  p1 : Player
  p2 : Player
  winner : Option Player
  round_num : Nat
  scores : ScoresTable
  history : List HistoryRow
deriving DecidableEq, Repr

/-- Constructor `Game(round_num)` followed by `game.players = [q1, q2]`: fresh board, no
winner, over a given store. -/
def Game.init (q1 q2 : Player) (round_num : Nat) (scores : ScoresTable)
    (history : List HistoryRow) : GameState :=
  { board := ⟨[]⟩, p1 := q1, p2 := q2, winner := none,
    round_num := round_num, scores := scores, history := history }

/-- Call `next(players_iter)`: the player the cycle currently points at. -/
def curPlayer (st : GameState) (cur : Bool) : Player :=
  if cur then st.p2 else st.p1

/-- Write back the (mutated-in-place in Python) current player object. -/
def setCurPlayer (st : GameState) (cur : Bool) (p : Player) : GameState :=
  if cur then { st with p2 := p } else { st with p1 := p }

/-- Method `Game.save()` (lines 258–268): `self.round_num += 1`, then insert a
history row `(player1 name, player2 name, winner name or null, timestamp)`.
`int(time.time())` is an input. -/
def Game.save (st : GameState) (ts : Nat) : GameState :=
  { st with
    round_num := st.round_num + 1,
    history := st.history ++ [(st.p1.name, st.p2.name, Option.map Player.name st.winner, ts)] }

/-- The move-validation conjunction of the inner input loop (lines 288–292):
`move.isdigit() and 1 <= int(move) <= 9 and self.board.add_move(int(move),
cur_player)`.  `none` means the conjunction was falsy (the player is
re-prompted); `some` carries the state after a successful placement. -/
def tryMove (st : GameState) (cur : Bool) (inp : String) : Option GameState :=
  if pyIsDigit inp then
    if 1 ≤ pyInt inp ∧ pyInt inp ≤ 9 then
      let r := st.board.add_move (pyInt inp) (curPlayer st cur)
      if r.1 then some (setCurPlayer { st with board := r.2.1 } cur r.2.2)
      else none
    else none
  else none

/-- The win branch (lines 301–316): `cur_player.add_score()`, `self.winner =
cur_player`, `self.save()`. -/
def winCommit (st : GameState) (cur : Bool) (ts : Nat) : GameState :=
  let r := (curPlayer st cur).add_score st.scores
  let st1 := setCurPlayer { st with scores := r.2 } cur r.1
  Game.save { st1 with winner := some r.1 } ts

/-- The draw branch (lines 318–332): `for player in self.players:
player.add_score()` (each opening the store in turn), then `self.save()`
with `self.winner` still `None`. -/
def drawCommit (st : GameState) (ts : Nat) : GameState :=
  let r1 := st.p1.add_score st.scores
  let r2 := st.p2.add_score r1.2
  Game.save { st with p1 := r1.1, p2 := r2.1, scores := r2.2 } ts

/-- How a run of `Game.start`'s loop ended: a win, a draw, the `?stop`
sentinel (`return`, line 286), or the supplied input list ran dry while the
loop was still waiting for input. -/
inductive Outcome where
  | won : Outcome
  | draw : Outcome
  | aborted : Outcome
  | outOfInput : Outcome
deriving DecidableEq, Repr

/-- Method `Game.start`'s loop (lines 277–332) over an explicit list of raw input
strings.  Per prompt: the `?stop` sentinel returns at once; an invalid input
re-prompts the same player on an unchanged state; a placed move is followed
by the win check, then the fullness check, else the cycle advances to the
other player. -/
def runRound (ts : Nat) : List String → GameState → Bool → Outcome × GameState
  | [], st, _ => (Outcome.outOfInput, st)
  | inp :: rest, st, cur =>
    if pyLower inp = "?stop" then (Outcome.aborted, st)
    else
      match tryMove st cur inp with
      | none => runRound ts rest st cur
      | some st1 =>
        if (Board.check_winner (curPlayer st1 cur)).truthy then
          (Outcome.won, winCommit st1 cur ts)
        else if st1.board.is_full then
          (Outcome.draw, drawCommit st1 ts)
        else
          runRound ts rest st1 (!cur)

/-- The accepted-rematch branch (lines 339–351): `Game(round_num=
self.round_num)` (fresh board, winner `None`, round number carried over from
the state `save` already incremented), then `for index, player in
enumerate(self.players[::-1])`: reset the moves and hand index 0 the X
marker, index 1 the O marker.  The store is untouched. -/
def Game.rematch (st : GameState) : GameState :=
  { board := ⟨[]⟩,
    p1 := { st.p2.reset_moves with marker := xMarker },
    p2 := { st.p1.reset_moves with marker := oMarker },
    winner := none,
    round_num := st.round_num,
    scores := st.scores,
    history := st.history }

/-! ### Move sequences for the board/player synchronisation invariants

For the invariant claims, a reachable board/player configuration is one
produced from a fresh board and two fresh move lists by a sequence of
`Board.add_move` calls; each step names the mover (`false` = first player)
and the attempted cell.  A failed placement leaves everything unchanged,
exactly as in the source. -/

def runMoves : List (Bool × Nat) → Board × Player × Player → Board × Player × Player
  | [], s => s
  | (who, mv) :: rest, (b, a, c) =>
    if who then
      let r := b.add_move mv c
      runMoves rest (r.2.1, a, r.2.2)
    else
      let r := b.add_move mv a
      runMoves rest (r.2.1, r.2.2, c)

/-! ### Concrete fixtures used by the witness theorems -/

/-- A fresh X player named Alice. -/
def alice : Player := Player.init "alice" xMarker

/-- A fresh O player named Bob. -/
def bob : Player := Player.init "bob" oMarker

/-- A fresh game between `alice` and `bob` over an empty store. -/
def freshGame : GameState := Game.init alice bob 1 [] []

/-- The position after the eight alternating placements 1,3,2,4,6,5,7,8
(X on 1,2,6,7 and O on 3,4,5,8): one empty cell, no line for either side. -/
def drawSt : GameState :=
  { board := ⟨[(1, xMarker), (3, oMarker), (2, xMarker), (4, oMarker),
               (6, xMarker), (5, oMarker), (7, xMarker), (8, oMarker)]⟩,
    p1 := { name := "Alice", marker := xMarker, moves := [1, 2, 6, 7], score := 0 },
    p2 := { name := "Bob", marker := oMarker, moves := [3, 4, 5, 8], score := 0 },
    winner := none, round_num := 1, scores := [], history := [] }

/-- State `drawSt` after X's final placement at cell 9: the board is full and
nobody has a line. -/
def drawSt1 : GameState :=
  { board := ⟨[(1, xMarker), (3, oMarker), (2, xMarker), (4, oMarker),
               (6, xMarker), (5, oMarker), (7, xMarker), (8, oMarker), (9, xMarker)]⟩,
    p1 := { name := "Alice", marker := xMarker, moves := [1, 2, 6, 7, 9], score := 0 },
    p2 := { name := "Bob", marker := oMarker, moves := [3, 4, 5, 8], score := 0 },
    winner := none, round_num := 1, scores := [], history := [] }

/-- A store body that raises, for exercising the error path of `dbopen`. -/
def failingStoreBody : Conn → Except String Nat × Conn :=
  fun c => (Except.error "disk I/O error", c)

/-- A store body that completes normally. -/
def okStoreBody : Conn → Except String Nat × Conn :=
  fun c => (Except.ok 7, c)

/-! ## Helper lemmas -/

theorem check_winner_from_eq_pair_iff (l : List (Nat × Nat × Nat)) (moves : List Nat)
    (c : Nat × Nat × Nat) :
    check_winner_from l moves = PyRet.pair true (some c) ↔
      ∃ l₁ l₂, l = l₁ ++ c :: l₂ ∧ comboSat moves c = true ∧
        ∀ c' ∈ l₁, comboSat moves c' = false := by
  induction l with
  | nil =>
    simp only [check_winner_from]
    constructor
    · intro h; cases h
    · rintro ⟨l₁, l₂, h, -, -⟩
      exact absurd h (by simp)
  | cons d ds ih =>
    by_cases hd : comboSat moves d = true
    · simp only [check_winner_from, hd, if_pos]
      constructor
      · intro h
        obtain ⟨-, h2⟩ := PyRet.pair.inj h
        obtain rfl := Option.some.inj h2
        exact ⟨[], ds, rfl, hd, by simp⟩
      · rintro ⟨l₁, l₂, heq, hc, hall⟩
        cases l₁ with
        | nil =>
          obtain ⟨rfl, -⟩ := List.cons.inj heq
          rfl
        | cons e es =>
          obtain ⟨rfl, -⟩ := List.cons.inj heq
          exact absurd hd (by simp [hall d (by simp)])
    · rw [show check_winner_from (d :: ds) moves = check_winner_from ds moves by
        simp only [check_winner_from]; rw [if_neg hd]]
      rw [ih]
      constructor
      · rintro ⟨l₁, l₂, rfl, hc, hall⟩
        refine ⟨d :: l₁, l₂, rfl, hc, ?_⟩
        intro c' hc'
        rcases List.mem_cons.1 hc' with rfl | h
        · exact Bool.eq_false_iff.2 hd
        · exact hall c' h
      · rintro ⟨l₁, l₂, heq, hc, hall⟩
        cases l₁ with
        | nil =>
          obtain ⟨rfl, -⟩ := List.cons.inj heq
          exact absurd hc hd
        | cons e es =>
          obtain ⟨rfl, rfl⟩ := List.cons.inj heq
          exact ⟨es, l₂, rfl, hc, fun c' h => hall c' (by simp [h])⟩

theorem check_winner_from_eq_false_iff (l : List (Nat × Nat × Nat)) (moves : List Nat) :
    check_winner_from l moves = PyRet.boolOnly false ↔
      ∀ c ∈ l, comboSat moves c = false := by
  induction l with
  | nil => simp [check_winner_from]
  | cons d ds ih =>
    by_cases hd : comboSat moves d = true
    · simp only [check_winner_from, hd, if_pos]
      constructor
      · intro h; cases h
      · intro h
        exact absurd hd (by simp [h d (by simp)])
    · rw [show check_winner_from (d :: ds) moves = check_winner_from ds moves by
        simp only [check_winner_from]; rw [if_neg hd]]
      rw [ih]
      constructor
      · intro h c hc
        rcases List.mem_cons.1 hc with rfl | h'
        · exact Bool.eq_false_iff.2 hd
        · exact h c h'
      · intro h c hc
        exact h c (by simp [hc])

theorem check_winner_from_exists_of_sat (l : List (Nat × Nat × Nat)) (moves : List Nat)
    (h : ∃ c ∈ l, comboSat moves c = true) :
    ∃ c, check_winner_from l moves = PyRet.pair true (some c) := by
  induction l with
  | nil => simp at h
  | cons d ds ih =>
    by_cases hd : comboSat moves d = true
    · exact ⟨d, by simp [check_winner_from, hd]⟩
    · obtain ⟨c, hc, hsat⟩ := h
      rcases List.mem_cons.1 hc with rfl | hmem
      · exact absurd hsat hd
      · obtain ⟨c', hc'⟩ := ih ⟨c, hmem, hsat⟩
        exact ⟨c', by simp [check_winner_from, hd, hc']⟩

/-! ## Claim theorems -/

/-- Claim C1 (corrected), counterexample to the claim as stated: on a player
with no winning combination `Board.check_winner` returns the bare boolean
`False` of line 228, not the pair `(False, None)` the claim describes. -/
theorem check_winner_bare_false_counterexample :
    Board.check_winner alice = PyRet.boolOnly false ∧
      Board.check_winner alice ≠ PyRet.pair false none := by
  constructor
  · rfl
  · intro h; cases h

/-- Claim C1 (amended): `Board.check_winner(player)` returns a pair of `True`
and a combination `c` iff `c` is the first combination of `winning_combos`
— in its fixed order rows `(1,2,3),(4,5,6),(7,8,9)`, columns
`(1,4,7),(2,5,8),(3,6,9)`, diagonals `(1,5,9),(3,5,7)` — whose three indices
are all in the player's claimed-cell list; such a pair is returned iff some
combination is fully claimed; and when no combination is satisfied it
returns the bare boolean `False` (not a `(False, None)` pair). -/
theorem check_winner_first_match (p : Player) :
    (∀ c : Nat × Nat × Nat,
      (comboSat p.moves c = true ↔ c.1 ∈ p.moves ∧ c.2.1 ∈ p.moves ∧ c.2.2 ∈ p.moves))
    ∧ (∀ c : Nat × Nat × Nat,
      Board.check_winner p = PyRet.pair true (some c) ↔
        ∃ l₁ l₂, winning_combos = l₁ ++ c :: l₂ ∧ comboSat p.moves c = true ∧
          ∀ c' ∈ l₁, comboSat p.moves c' = false)
    ∧ ((∃ c, Board.check_winner p = PyRet.pair true (some c)) ↔
        ∃ c ∈ winning_combos, comboSat p.moves c = true)
    ∧ (Board.check_winner p = PyRet.boolOnly false ↔
        ∀ c ∈ winning_combos, comboSat p.moves c = false) := by
  refine ⟨?_, ?_, ?_, ?_⟩
  · intro c
    simp [comboSat, and_assoc]
  · intro c
    exact check_winner_from_eq_pair_iff winning_combos p.moves c
  · constructor
    · rintro ⟨c, hc⟩
      obtain ⟨l₁, l₂, heq, hsat, -⟩ :=
        (check_winner_from_eq_pair_iff winning_combos p.moves c).1 hc
      exact ⟨c, by simp [heq], hsat⟩
    · exact check_winner_from_exists_of_sat winning_combos p.moves
  · exact check_winner_from_eq_false_iff winning_combos p.moves

/-- Claim C3 (confirmed): an input equal to the stop sentinel `?stop` under
`str.lower()` makes the round return at once as aborted, with the whole
game state — board, players, scores table, history, round number —
untouched and the remaining inputs unread. -/
theorem stop_sentinel_aborts (ts : Nat) (inp : String) (rest : List String)
    (st : GameState) (cur : Bool) (h : pyLower inp = "?stop") :
    runRound ts (inp :: rest) st cur = (Outcome.aborted, st) := by
  simp [runRound, h]

/-- Witness for `stop_sentinel_aborts`: a mixed-case `?StOp` at the first
prompt of a fresh game aborts it unchanged. -/
theorem stop_sentinel_aborts_witness :
    runRound 0 ["?StOp", "5"] freshGame false = (Outcome.aborted, freshGame) :=
  stop_sentinel_aborts 0 "?StOp" ["5"] freshGame false (by decide)

/-- Claim C9 (confirmed): running any store body under `dbopen` leaves the
connection committed and closed on every exit path, a body that raises has
its exception propagated unchanged, and a body that completes normally has
its value returned. -/
theorem dbopen_scoped {α : Type} (body : Conn → Except String α × Conn) :
    ((withDbopen body).2.committed = true ∧ (withDbopen body).2.closed = true)
    ∧ (∀ e : String, (body dbopenEnter).1 = Except.error e →
        (withDbopen body).1 = Except.error e)
    ∧ (∀ a : α, (body dbopenEnter).1 = Except.ok a →
        (withDbopen body).1 = Except.ok (some a)) := by
  simp only [withDbopen, pyWith, dbopenExit, Conn.commit, Conn.close]
  cases h : (body dbopenEnter).1 <;> simp [h]

/-- Witness for `dbopen_scoped`: a body raising "disk I/O error" propagates
it with the connection committed and closed; a body returning 7 yields 7. -/
theorem dbopen_scoped_witness :
    (withDbopen failingStoreBody).1 = Except.error "disk I/O error"
    ∧ (withDbopen failingStoreBody).2.committed = true
    ∧ (withDbopen failingStoreBody).2.closed = true
    ∧ (withDbopen okStoreBody).1 = Except.ok (some 7) :=
  ⟨(dbopen_scoped failingStoreBody).2.1 "disk I/O error" rfl,
   (dbopen_scoped failingStoreBody).1.1,
   (dbopen_scoped failingStoreBody).1.2,
   (dbopen_scoped okStoreBody).2.2 7 rfl⟩

theorem scoresUpdate_map_fst (tbl : ScoresTable) (name : String) :
    (scoresUpdate tbl name).map Prod.fst = tbl.map Prod.fst := by
  induction tbl with
  | nil => rfl
  | cons r tl ih =>
    obtain ⟨a, b⟩ := r
    simp only [scoresUpdate, List.map_cons] at ih ⊢
    by_cases h : a = name
    · rw [if_pos h]
      simpa using ih
    · rw [if_neg h]
      simpa using ih

theorem scoresUpdate_lookup (tbl : ScoresTable) (name : String) :
    (scoresUpdate tbl name).lookup name = (tbl.lookup name).map (· + 1) := by
  induction tbl with
  | nil => rfl
  | cons r tl ih =>
    obtain ⟨a, b⟩ := r
    by_cases h : a = name
    · subst h
      simp only [scoresUpdate, List.map_cons, if_pos rfl]
      rw [List.lookup_cons, List.lookup_cons]
      simp [scoresUpdate]
    · have hne : (name == a) = false := by
        simp only [beq_eq_false_iff_ne, ne_eq]
        exact fun hh => h hh.symm
      simp only [scoresUpdate, List.map_cons, if_neg h]
      rw [List.lookup_cons, List.lookup_cons]
      simp only [hne]
      simpa [scoresUpdate] using ih

/-- Claim C4 (confirmed): `Player.add_score` adds exactly 1 to the in-memory
score (touching no other player field); the modelled `INSERT` fails with the
uniqueness conflict precisely when a row with the player's normalized name
exists; absent such a row the upsert appends `(name, 1)`, otherwise it keeps
the key set unchanged and adds 1 to the existing row's count — and it never
introduces a duplicate name row. -/
theorem add_score_upsert (p : Player) (tbl : ScoresTable) :
    ((p.add_score tbl).1.score = p.score + 1)
    ∧ ((p.add_score tbl).1.name = p.name ∧ (p.add_score tbl).1.marker = p.marker
        ∧ (p.add_score tbl).1.moves = p.moves)
    ∧ (scoresInsert tbl p.name = Except.error () ↔ p.name ∈ tbl.map Prod.fst)
    ∧ (p.name ∉ tbl.map Prod.fst → (p.add_score tbl).2 = tbl ++ [(p.name, 1)])
    ∧ (p.name ∈ tbl.map Prod.fst →
        (p.add_score tbl).2.map Prod.fst = tbl.map Prod.fst
        ∧ (p.add_score tbl).2.lookup p.name = (tbl.lookup p.name).map (· + 1))
    ∧ ((tbl.map Prod.fst).Nodup → ((p.add_score tbl).2.map Prod.fst).Nodup) := by
  refine ⟨rfl, ⟨rfl, rfl, rfl⟩, ?_, ?_, ?_, ?_⟩
  · constructor
    · intro h
      by_contra hmem
      simp [scoresInsert, hmem] at h
    · intro h
      simp [scoresInsert, h]
  · intro h
    simp [Player.add_score, scoresUpsert, scoresInsert, h]
  · intro h
    refine ⟨?_, ?_⟩
    · simp [Player.add_score, scoresUpsert, scoresInsert, h, scoresUpdate_map_fst]
    · simp [Player.add_score, scoresUpsert, scoresInsert, h, scoresUpdate_lookup]
  · intro h
    by_cases hmem : p.name ∈ tbl.map Prod.fst
    · simpa [Player.add_score, scoresUpsert, scoresInsert, hmem, scoresUpdate_map_fst] using h
    · simp [Player.add_score, scoresUpsert, scoresInsert, hmem, List.nodup_append, h]

/-- Witness for `add_score_upsert`: a first win inserts `("Alice", 1)`; a
further win on a table already holding `("Alice", 2)` updates the count to 3
and leaves Alice's in-memory score incremented. -/
theorem add_score_upsert_witness :
    (alice.add_score []).2 = [("Alice", 1)]
    ∧ (alice.add_score [("Alice", 2)]).2.lookup alice.name = some 3
    ∧ (alice.add_score [("Alice", 2)]).1.score = 1 :=
  ⟨((add_score_upsert alice []).2.2.2.1 (by simp)).trans (by decide),
   (((add_score_upsert alice [("Alice", 2)]).2.2.2.2.1 (by decide)).2).trans (by decide),
   ((add_score_upsert alice [("Alice", 2)]).1).trans (by decide)⟩

theorem pyTitleAux_length (prev : Bool) (l : List Char) :
    (pyTitleAux prev l).length = l.length := by
  induction l generalizing prev with
  | nil => rfl
  | cons c cs ih => simp [pyTitleAux, ih]

theorem pyTitleAux_getD (l : List Char) (prev : Bool) (i : Nat) (h : i < l.length) :
    (pyTitleAux prev l).getD i ' ' =
      titleChar (if i = 0 then prev else (l.getD (i - 1) ' ').isAlpha) (l.getD i ' ') := by
  induction l generalizing prev i with
  | nil => exact absurd h (by simp)
  | cons c cs ih =>
    cases i with
    | zero => simp [pyTitleAux]
    | succ j =>
      have hj : j < cs.length := by simpa using h
      simp only [pyTitleAux, List.getD_cons_succ]
      rw [ih c.isAlpha j hj]
      cases j with
      | zero => simp
      | succ k => simp

/-- Claim C8 (corrected), counterexample to the claim as stated: the code does
not strip surrounding whitespace (`Player.__init__` runs only
`name.title()`), and `main` replaces only the exactly-empty name string —
a whitespace-only name is truthy in Python, so it is kept, not replaced by
the positional default. -/
theorem player_name_counterexample :
    defaultName " " "Player 1" = " "
    ∧ defaultName " " "Player 1" ≠ "Player 1"
    ∧ (Player.init " " oMarker).name = " "
    ∧ (Player.init " alice " xMarker).name = " Alice "
    ∧ (Player.init " alice " xMarker).name ≠ "Alice" := by
  refine ⟨rfl, by decide, rfl, rfl, by decide⟩

/-- Claim C8 (amended): a constructed Player's name is the raw input
title-cased in place — same length, the first letter of each alphabetic run
uppercased, every other letter lowercased, non-letters (whitespace included)
kept — with no trimming; and at the engine layer only the exactly-empty raw
name is replaced by the positional default, any other string (blank ones
included) is kept. -/
theorem player_name_normalization (raw dflt marker : String) :
    (raw = "" → defaultName raw dflt = dflt)
    ∧ (raw ≠ "" → defaultName raw dflt = raw)
    ∧ (Player.init raw marker).name.data.length = raw.data.length
    ∧ (∀ i : Nat, i < raw.data.length →
        (Player.init raw marker).name.data.getD i ' ' =
          titleChar (if i = 0 then false else (raw.data.getD (i - 1) ' ').isAlpha)
            (raw.data.getD i ' ')) := by
  refine ⟨?_, ?_, ?_, ?_⟩
  · intro h
    simp [defaultName, h]
  · intro h
    simp [defaultName, h]
  · exact pyTitleAux_length false raw.data
  · intro i hi
    exact pyTitleAux_getD raw.data false i hi

/-- Witness for `player_name_normalization`: the empty name defaults, a
blank-ish name `" a"` is kept as typed, and its letter after the space is
uppercased to `'A'`. -/
theorem player_name_normalization_witness :
    defaultName "" "Player 1" = "Player 1"
    ∧ defaultName " a" "Player 1" = " a"
    ∧ (Player.init " a" xMarker).name.data.getD 1 ' ' = 'A' :=
  ⟨(player_name_normalization "" "Player 1" xMarker).1 rfl,
   (player_name_normalization " a" "Player 1" xMarker).2.1 (by decide),
   ((player_name_normalization " a" "Player 1" xMarker).2.2.2 1 (by decide)).trans
     (by decide)⟩

/-- Claim C6 (confirmed): an accepted rematch builds the next round from a
fresh empty board; both players' move lists are reset; the players are
re-bound in reverse order — the old second player becomes `players[0]` with
the X marker, the old first player becomes `players[1]` with the O marker —
names and cumulative scores carried over unchanged, the store untouched; and
since `save` has already incremented `round_num`, the rematch round's number
is the completed round's number plus one. -/
theorem rematch_reverse_rebind (st : GameState) (ts : Nat) :
    (Game.rematch st).board = ⟨[]⟩
    ∧ (Game.rematch st).winner = none
    ∧ (Game.rematch st).p1.moves = [] ∧ (Game.rematch st).p2.moves = []
    ∧ (Game.rematch st).p1.name = st.p2.name ∧ (Game.rematch st).p2.name = st.p1.name
    ∧ (Game.rematch st).p1.marker = xMarker ∧ (Game.rematch st).p2.marker = oMarker
    ∧ (Game.rematch st).p1.score = st.p2.score ∧ (Game.rematch st).p2.score = st.p1.score
    ∧ (Game.rematch st).scores = st.scores ∧ (Game.rematch st).history = st.history
    ∧ (Game.rematch st).round_num = st.round_num
    ∧ (Game.rematch (Game.save st ts)).round_num = st.round_num + 1 :=
  ⟨rfl, rfl, rfl, rfl, rfl, rfl, rfl, rfl, rfl, rfl, rfl, rfl, rfl, rfl⟩

theorem tryMove_none_of_not_digit (st : GameState) (cur : Bool) (inp : String)
    (h : pyIsDigit inp = false) : tryMove st cur inp = none := by
  simp [tryMove, h]

theorem tryMove_none_of_out_of_range (st : GameState) (cur : Bool) (inp : String)
    (h : ¬(1 ≤ pyInt inp ∧ pyInt inp ≤ 9)) : tryMove st cur inp = none := by
  by_cases hd : pyIsDigit inp = true
  · simp [tryMove, hd, h]
  · simp [tryMove, Bool.eq_false_iff.2 hd]

theorem tryMove_none_of_occupied (st : GameState) (cur : Bool) (inp : String)
    (h : pyInt inp ∈ st.board.keys) : tryMove st cur inp = none := by
  by_cases hd : pyIsDigit inp = true
  · by_cases hr : 1 ≤ pyInt inp ∧ pyInt inp ≤ 9
    · simp [tryMove, hd, hr, Board.add_move, h]
    · simp [tryMove, hd, hr]
  · simp [tryMove, Bool.eq_false_iff.2 hd]

theorem runRound_skips_invalid (ts : Nat) (bad rest : List String) (st : GameState)
    (cur : Bool) (h : ∀ i ∈ bad, pyLower i ≠ "?stop" ∧ tryMove st cur i = none) :
    runRound ts (bad ++ rest) st cur = runRound ts rest st cur := by
  induction bad with
  | nil => rfl
  | cons inp tl ih =>
    have hi := h inp (by simp)
    rw [List.cons_append]
    rw [show runRound ts (inp :: (tl ++ rest)) st cur = runRound ts (tl ++ rest) st cur by
      simp [runRound, hi.1, hi.2]]
    exact ih fun i hmem => h i (by simp [hmem])

/-- Claim C5 (confirmed): a non-numeric input, an input whose integer value is
outside 1–9, and an input naming an occupied cell all fail the validation
conjunction without touching the board mapping or either player's move
list (`Board.add_move` on an occupied cell returns `False` and mutates
nothing), and any finite run of such rejected inputs — there is no retry
cap — leaves the loop re-prompting the same player on the unchanged state. -/
theorem invalid_move_rejected :
    (∀ (b : Board) (p : Player) (m : Nat), m ∈ b.keys → b.add_move m p = (false, b, p))
    ∧ (∀ (st : GameState) (cur : Bool) (inp : String),
        pyIsDigit inp = false → tryMove st cur inp = none)
    ∧ (∀ (st : GameState) (cur : Bool) (inp : String),
        ¬(1 ≤ pyInt inp ∧ pyInt inp ≤ 9) → tryMove st cur inp = none)
    ∧ (∀ (st : GameState) (cur : Bool) (inp : String),
        pyInt inp ∈ st.board.keys → tryMove st cur inp = none)
    ∧ (∀ (ts : Nat) (bad rest : List String) (st : GameState) (cur : Bool),
        (∀ i ∈ bad, pyLower i ≠ "?stop" ∧ tryMove st cur i = none) →
        runRound ts (bad ++ rest) st cur = runRound ts rest st cur) := by
  refine ⟨?_, tryMove_none_of_not_digit, tryMove_none_of_out_of_range,
    tryMove_none_of_occupied, runRound_skips_invalid⟩
  intro b p m h
  simp [Board.add_move, h]

/-- Witness for `invalid_move_rejected`: on a board whose cell 5 is taken,
placing at 5 fails without mutation; the raw inputs `"abc"`, `"0"`, `"12"`
and `"5"` are all rejected; and the run of rejected inputs
`["abc", "0", "12", "5"]` drops out of the loop with state and turn
unchanged. -/
theorem invalid_move_rejected_witness :
    (Board.mk [(5, xMarker)]).add_move 5 bob =
      (false, Board.mk [(5, xMarker)], bob)
    ∧ tryMove drawSt false "abc" = none
    ∧ tryMove drawSt false "0" = none
    ∧ tryMove drawSt false "12" = none
    ∧ tryMove drawSt false "5" = none
    ∧ runRound 3 (["abc", "0", "12", "5"] ++ ["9"]) drawSt false =
        runRound 3 ["9"] drawSt false :=
  ⟨invalid_move_rejected.1 (Board.mk [(5, xMarker)]) bob 5 (by decide),
   invalid_move_rejected.2.1 drawSt false "abc" (by decide),
   invalid_move_rejected.2.2.1 drawSt false "0" (by decide),
   invalid_move_rejected.2.2.1 drawSt false "12" (by decide),
   invalid_move_rejected.2.2.2.1 drawSt false "5" (by decide),
   invalid_move_rejected.2.2.2.2 3 ["abc", "0", "12", "5"] ["9"] drawSt false
     (by decide)⟩

theorem add_move_player_frame (b : Board) (m : Nat) (p : Player) :
    (b.add_move m p).2.2.name = p.name ∧ (b.add_move m p).2.2.marker = p.marker
    ∧ (b.add_move m p).2.2.score = p.score := by
  by_cases h : m ∈ b.keys <;> simp [Board.add_move, h, Player.add_move]

theorem tryMove_frame (st st1 : GameState) (cur : Bool) (inp : String)
    (h : tryMove st cur inp = some st1) :
    st1.p1.score = st.p1.score ∧ st1.p2.score = st.p2.score
    ∧ st1.p1.name = st.p1.name ∧ st1.p2.name = st.p2.name
    ∧ st1.winner = st.winner ∧ st1.round_num = st.round_num
    ∧ st1.scores = st.scores ∧ st1.history = st.history := by
  simp only [tryMove] at h
  split_ifs at h with h1 h2 h3
  · obtain rfl := Option.some.inj h
    cases cur <;>
      simp [setCurPlayer, curPlayer, add_move_player_frame,
        (add_move_player_frame _ _ _).1, (add_move_player_frame _ _ _).2.2]

/-- Claim C2 (confirmed): when a move fills the ninth cell without handing the
moving player a winning combination, the round ends as a draw: both players'
in-memory scores go up by exactly 1, the scores table receives an upsert for
each name in turn, and one history row with a null winner and the incremented
round number is appended. -/
theorem draw_awards_both (ts : Nat) (inp : String) (rest : List String)
    (st st1 : GameState) (cur : Bool)
    (hstop : pyLower inp ≠ "?stop")
    (hmv : tryMove st cur inp = some st1)
    (hnowin : (Board.check_winner (curPlayer st1 cur)).truthy = false)
    (hfull : st1.board.is_full = true)
    (hw : st.winner = none) :
    runRound ts (inp :: rest) st cur = (Outcome.draw, drawCommit st1 ts)
    ∧ (drawCommit st1 ts).p1.score = st.p1.score + 1
    ∧ (drawCommit st1 ts).p2.score = st.p2.score + 1
    ∧ (drawCommit st1 ts).history = st.history ++ [(st.p1.name, st.p2.name, none, ts)]
    ∧ (drawCommit st1 ts).round_num = st.round_num + 1
    ∧ (drawCommit st1 ts).scores =
        scoresUpsert (scoresUpsert st.scores st.p1.name) st.p2.name := by
  obtain ⟨hs1, hs2, hn1, hn2, hwin, hrn, hsc, hh⟩ := tryMove_frame st st1 cur inp hmv
  refine ⟨?_, ?_, ?_, ?_, ?_, ?_⟩
  · simp [runRound, hstop, hmv, hnowin, hfull]
  · simp [drawCommit, Player.add_score, Game.save, hs1]
  · simp [drawCommit, Player.add_score, Game.save, hs2]
  · simp [drawCommit, Player.add_score, Game.save, hn1, hn2, hh, hwin, hw]
  · simp [drawCommit, Game.save, hrn]
  · simp [drawCommit, Player.add_score, Game.save, hsc, hn1, hn2]

/-- Witness for `draw_awards_both`: from the eight-move position `drawSt`,
X's final placement at cell 9 yields a draw; both scores become 1 and the
history holds one null-winner row. -/
theorem draw_awards_both_witness :
    runRound 7 ["9"] drawSt false = (Outcome.draw, drawCommit drawSt1 7)
    ∧ (drawCommit drawSt1 7).p1.score = 1
    ∧ (drawCommit drawSt1 7).p2.score = 1
    ∧ (drawCommit drawSt1 7).history = [("Alice", "Bob", none, 7)]
    ∧ (drawCommit drawSt1 7).round_num = 2 := by
  have h := draw_awards_both 7 "9" [] drawSt drawSt1 false (by decide) (by decide)
    (by decide) (by decide) rfl
  exact ⟨h.1, h.2.1.trans (by decide), h.2.2.1.trans (by decide),
    h.2.2.2.1.trans (by decide), h.2.2.2.2.1.trans (by decide)⟩

theorem lookup_append_left (l l' : List (Nat × String)) (k : Nat)
    (h : k ∈ l.map Prod.fst) : (l ++ l').lookup k = l.lookup k := by
  induction l with
  | nil => simp at h
  | cons r tl ih =>
    obtain ⟨a, b⟩ := r
    by_cases hk : k = a
    · subst hk
      simp [List.lookup_cons]
    · have hne : (k == a) = false := beq_eq_false_iff_ne.2 hk
      rw [List.cons_append, List.lookup_cons, List.lookup_cons]
      simp only [hne]
      apply ih
      simp only [List.map_cons, List.mem_cons] at h
      exact h.resolve_left hk

theorem lookup_append_new (l : List (Nat × String)) (m : Nat) (v : String)
    (h : m ∉ l.map Prod.fst) : (l ++ [(m, v)]).lookup m = some v := by
  induction l with
  | nil => simp [List.lookup_cons]
  | cons r tl ih =>
    obtain ⟨a, b⟩ := r
    simp only [List.map_cons, List.mem_cons, not_or] at h
    have hne : (m == a) = false := beq_eq_false_iff_ne.2 h.1
    rw [List.cons_append, List.lookup_cons]
    simp only [hne]
    exact ih h.2

theorem add_move_mem (b : Board) (p : Player) (m : Nat) (hm : m ∈ b.keys) :
    b.add_move m p = (false, b, p) := by
  simp only [Board.add_move]
  rw [if_pos hm]

theorem add_move_not_mem (b : Board) (p : Player) (m : Nat) (hm : m ∉ b.keys) :
    b.add_move m p = (true, ⟨b.board ++ [(m, p.marker)]⟩, p.add_move m) := by
  simp only [Board.add_move]
  rw [if_neg hm]

/-- The synchronisation invariant between a board and the two player objects
that have been placing on it: the dict's key set is the disjoint union of
the two claimed-cell lists, every occupied cell maps to its owner's marker,
the keys are distinct, and both move lists are sorted and duplicate-free. -/
structure SyncInv (b : Board) (a c : Player) : Prop where
  mem_keys : ∀ k, k ∈ b.keys ↔ (k ∈ a.moves ∨ k ∈ c.moves)
  disj : ∀ k, k ∈ a.moves → k ∉ c.moves
  owner1 : ∀ k, k ∈ a.moves → b.board.lookup k = some a.marker
  owner2 : ∀ k, k ∈ c.moves → b.board.lookup k = some c.marker
  keys_nodup : b.keys.Nodup
  sorted1 : a.moves.Sorted (· ≤ ·)
  nodup1 : a.moves.Nodup
  sorted2 : c.moves.Sorted (· ≤ ·)
  nodup2 : c.moves.Nodup

theorem SyncInv.swap {b : Board} {a c : Player} (h : SyncInv b a c) : SyncInv b c a where
  mem_keys k := (h.mem_keys k).trans or_comm
  disj k hk hka := h.disj k hka hk
  owner1 := h.owner2
  owner2 := h.owner1
  keys_nodup := h.keys_nodup
  sorted1 := h.sorted2
  nodup1 := h.nodup2
  sorted2 := h.sorted1
  nodup2 := h.nodup1

theorem syncInv_init (a c : Player) (ha : a.moves = []) (hc : c.moves = []) :
    SyncInv ⟨[]⟩ a c where
  mem_keys k := by simp [Board.keys, ha, hc]
  disj k := by simp [ha]
  owner1 k := by simp [ha]
  owner2 k := by simp [hc]
  keys_nodup := by simp [Board.keys]
  sorted1 := by simp [ha]
  nodup1 := by simp [ha]
  sorted2 := by simp [hc]
  nodup2 := by simp [hc]

theorem SyncInv.add_move {b : Board} {a c : Player} (h : SyncInv b a c) (m : Nat) :
    SyncInv (b.add_move m a).2.1 (b.add_move m a).2.2 c := by
  by_cases hm : m ∈ b.keys
  · simpa [Board.add_move, hm] using h
  · have hma : m ∉ a.moves := fun hx => hm ((h.mem_keys m).2 (Or.inl hx))
    have hmc : m ∉ c.moves := fun hx => hm ((h.mem_keys m).2 (Or.inr hx))
    have haddm : (b.add_move m a).2.2 = a.add_move m := by
      rw [add_move_not_mem b a m hm]
    have hkeys : (b.add_move m a).2.1.keys = b.keys ++ [m] := by
      rw [add_move_not_mem b a m hm]
      simp [Board.keys]
    have hboard : (b.add_move m a).2.1.board = b.board ++ [(m, a.marker)] := by
      rw [add_move_not_mem b a m hm]
    have hperm : (a.add_move m).moves.Perm (a.moves ++ [m]) :=
      List.perm_insertionSort _ _
    have hmoves : ∀ k, k ∈ (a.add_move m).moves ↔ (k ∈ a.moves ∨ k = m) := by
      intro k
      rw [hperm.mem_iff]
      simp
    rw [haddm]
    refine ⟨?_, ?_, ?_, ?_, ?_, ?_, ?_, h.sorted2, h.nodup2⟩
    · intro k
      rw [hkeys]
      simp only [List.mem_append, List.mem_singleton]
      rw [h.mem_keys k, hmoves k]
      tauto
    · intro k hk hkc
      rcases (hmoves k).1 hk with hka | rfl
      · exact h.disj k hka hkc
      · exact hmc hkc
    · intro k hk
      rw [hboard]
      rcases (hmoves k).1 hk with hka | rfl
      · have hkb : k ∈ b.keys := (h.mem_keys k).2 (Or.inl hka)
        exact (lookup_append_left b.board _ k hkb).trans (h.owner1 k hka)
      · exact lookup_append_new b.board k a.marker hm
    · intro k hk
      rw [hboard]
      have hkb : k ∈ b.keys := (h.mem_keys k).2 (Or.inr hk)
      exact (lookup_append_left b.board _ k hkb).trans (h.owner2 k hk)
    · rw [hkeys, List.nodup_append]
      refine ⟨h.keys_nodup, List.nodup_singleton m, ?_⟩
      intro k hk hk'
      simp only [List.mem_singleton] at hk'
      subst hk'
      exact hm hk
    · exact List.sorted_insertionSort _ _
    · refine (hperm.nodup_iff).2 ?_
      rw [List.nodup_append]
      refine ⟨h.nodup1, List.nodup_singleton m, ?_⟩
      intro k hk hk'
      simp only [List.mem_singleton] at hk'
      subst hk'
      exact hma hk

theorem runMoves_sync (steps : List (Bool × Nat)) : ∀ (b : Board) (a c : Player),
    SyncInv b a c →
    SyncInv (runMoves steps (b, a, c)).1 (runMoves steps (b, a, c)).2.1
      (runMoves steps (b, a, c)).2.2 := by
  induction steps with
  | nil => exact fun b a c h => h
  | cons s rest ih =>
    obtain ⟨who, mv⟩ := s
    intro b a c h
    cases who
    · simpa only [runMoves] using ih _ _ _ (h.add_move mv)
    · simpa only [runMoves] using ih _ _ _ ((h.swap.add_move mv).swap)

theorem runMoves_frame (steps : List (Bool × Nat)) : ∀ (b : Board) (a c : Player),
    (runMoves steps (b, a, c)).2.1.name = a.name
    ∧ (runMoves steps (b, a, c)).2.1.marker = a.marker
    ∧ (runMoves steps (b, a, c)).2.1.score = a.score
    ∧ (runMoves steps (b, a, c)).2.2.name = c.name
    ∧ (runMoves steps (b, a, c)).2.2.marker = c.marker
    ∧ (runMoves steps (b, a, c)).2.2.score = c.score := by
  induction steps with
  | nil => exact fun b a c => ⟨rfl, rfl, rfl, rfl, rfl, rfl⟩
  | cons s rest ih =>
    obtain ⟨who, mv⟩ := s
    intro b a c
    cases who
    · have hf := add_move_player_frame b mv a
      have hr := ih (b.add_move mv a).2.1 (b.add_move mv a).2.2 c
      simp only [runMoves]
      exact ⟨hr.1.trans hf.1, hr.2.1.trans hf.2.1, hr.2.2.1.trans hf.2.2,
        hr.2.2.2.1, hr.2.2.2.2.1, hr.2.2.2.2.2⟩
    · have hf := add_move_player_frame b mv c
      have hr := ih (b.add_move mv c).2.1 a (b.add_move mv c).2.2
      simp only [runMoves]
      exact ⟨hr.1, hr.2.1, hr.2.2.1, hr.2.2.2.1.trans hf.1,
        hr.2.2.2.2.1.trans hf.2.1, hr.2.2.2.2.2.trans hf.2.2⟩

theorem add_move_keys_cases (b : Board) (p : Player) (m : Nat) :
    ∀ k ∈ (b.add_move m p).2.1.keys, k ∈ b.keys ∨ k = m := by
  intro k hk
  by_cases hm : m ∈ b.keys
  · rw [add_move_mem b p m hm] at hk
    exact Or.inl hk
  · rw [add_move_not_mem b p m hm] at hk
    simp only [Board.keys, List.map_append] at hk
    rcases List.mem_append.1 hk with h | h
    · exact Or.inl h
    · simp only [List.map_cons, List.map_nil, List.mem_singleton] at h
      exact Or.inr h

theorem runMoves_keys_bound (steps : List (Bool × Nat)) : ∀ (b : Board) (a c : Player),
    (∀ s ∈ steps, 1 ≤ s.2 ∧ s.2 ≤ 9) → (∀ k ∈ b.keys, 1 ≤ k ∧ k ≤ 9) →
    ∀ k ∈ (runMoves steps (b, a, c)).1.keys, 1 ≤ k ∧ k ≤ 9 := by
  induction steps with
  | nil => exact fun b a c _ hb => hb
  | cons s rest ih =>
    obtain ⟨who, mv⟩ := s
    intro b a c hs hb
    have hmv : 1 ≤ mv ∧ mv ≤ 9 := hs (who, mv) (by simp)
    have hb' : ∀ (p : Player), ∀ k ∈ (b.add_move mv p).2.1.keys, 1 ≤ k ∧ k ≤ 9 := by
      intro p k hk
      rcases add_move_keys_cases b p mv k hk with h | rfl
      · exact hb k h
      · exact hmv
    cases who
    · simpa only [runMoves] using
        ih _ _ _ (fun s hsm => hs s (by simp [hsm])) (hb' a)
    · simpa only [runMoves] using
        ih _ _ _ (fun s hsm => hs s (by simp [hsm])) (hb' c)

theorem length_le_nine_of_nodup (l : List Nat) (hn : l.Nodup)
    (hb : ∀ k ∈ l, 1 ≤ k ∧ k ≤ 9) : l.length ≤ 9 := by
  have hsub : l ⊆ [1, 2, 3, 4, 5, 6, 7, 8, 9] := by
    intro k hk
    have := hb k hk
    simp only [List.mem_cons, List.not_mem_nil, or_false]
    omega
  simpa using (List.subperm_of_subset hn hsub).length_le

theorem add_move_preserves_occupied (b : Board) (p : Player) (m k : Nat)
    (h : k ∈ b.keys) :
    (b.add_move m p).2.1.board.lookup k = b.board.lookup k
    ∧ k ∈ (b.add_move m p).2.1.keys := by
  by_cases hm : m ∈ b.keys
  · rw [add_move_mem b p m hm]
    exact ⟨rfl, h⟩
  · rw [add_move_not_mem b p m hm]
    constructor
    · exact lookup_append_left b.board _ k h
    · simp only [Board.keys, List.map_append]
      exact List.mem_append.2 (Or.inl h)

theorem runMoves_preserves_occupied (steps : List (Bool × Nat)) :
    ∀ (b : Board) (a c : Player) (k : Nat), k ∈ b.keys →
    (runMoves steps (b, a, c)).1.board.lookup k = b.board.lookup k
    ∧ k ∈ (runMoves steps (b, a, c)).1.keys := by
  induction steps with
  | nil => exact fun b a c k h => ⟨rfl, h⟩
  | cons s rest ih =>
    obtain ⟨who, mv⟩ := s
    intro b a c k h
    cases who
    · have hstep := add_move_preserves_occupied b a mv k h
      have hr := ih (b.add_move mv a).2.1 (b.add_move mv a).2.2 c k hstep.2
      simp only [runMoves]
      exact ⟨hr.1.trans hstep.1, hr.2⟩
    · have hstep := add_move_preserves_occupied b c mv k h
      have hr := ih (b.add_move mv c).2.1 a (b.add_move mv c).2.2 k hstep.2
      simp only [runMoves]
      exact ⟨hr.1.trans hstep.1, hr.2⟩

/-- Claim C7 (confirmed): along every sequence of `Board.add_move` calls with
cells in 1–9 from a fresh board (the only way the engine reaches a board
state), the dict's keys stay distinct and number at most 9, `is_full` holds
iff exactly 9 distinct cells are occupied, and both players' claimed-cell
lists stay sorted ascending without duplicates; moreover any already
occupied cell keeps exactly its old marker entry across any further
`add_move` sequence — never overwritten, never removed. -/
theorem board_invariants :
    (∀ (steps : List (Bool × Nat)) (a0 c0 : Player),
      a0.moves = [] → c0.moves = [] → (∀ s ∈ steps, 1 ≤ s.2 ∧ s.2 ≤ 9) →
      (runMoves steps (⟨[]⟩, a0, c0)).1.keys.Nodup
      ∧ (runMoves steps (⟨[]⟩, a0, c0)).1.board.length ≤ 9
      ∧ ((runMoves steps (⟨[]⟩, a0, c0)).1.is_full = true ↔
          (runMoves steps (⟨[]⟩, a0, c0)).1.keys.length = 9)
      ∧ (runMoves steps (⟨[]⟩, a0, c0)).2.1.moves.Sorted (· ≤ ·)
      ∧ (runMoves steps (⟨[]⟩, a0, c0)).2.1.moves.Nodup
      ∧ (runMoves steps (⟨[]⟩, a0, c0)).2.2.moves.Sorted (· ≤ ·)
      ∧ (runMoves steps (⟨[]⟩, a0, c0)).2.2.moves.Nodup)
    ∧ (∀ (steps : List (Bool × Nat)) (b : Board) (a c : Player) (k : Nat),
        k ∈ b.keys →
        (runMoves steps (b, a, c)).1.board.lookup k = b.board.lookup k
        ∧ k ∈ (runMoves steps (b, a, c)).1.keys) := by
  constructor
  · intro steps a0 c0 ha hc hs
    have hinv := runMoves_sync steps ⟨[]⟩ a0 c0 (syncInv_init a0 c0 ha hc)
    have hkb := runMoves_keys_bound steps ⟨[]⟩ a0 c0 hs (by simp [Board.keys])
    have hlen : (runMoves steps (⟨[]⟩, a0, c0)).1.keys.length ≤ 9 :=
      length_le_nine_of_nodup _ hinv.keys_nodup hkb
    refine ⟨hinv.keys_nodup, ?_, ?_, hinv.sorted1, hinv.nodup1,
      hinv.sorted2, hinv.nodup2⟩
    · simpa [Board.keys] using hlen
    · simp [Board.is_full, Board.keys]
  · exact fun steps b a c k h => runMoves_preserves_occupied steps b a c k h

/-- Witness for `board_invariants`: three placements — the middle one a
rejected duplicate — leave distinct keys, and a later placement by the other
player leaves cell 5's original entry intact. -/
theorem board_invariants_witness :
    (runMoves [(false, 5), (true, 5), (false, 3)] (⟨[]⟩, alice, bob)).1.keys.Nodup
    ∧ (runMoves [(true, 9)] (⟨[(5, "m")]⟩, alice, bob)).1.board.lookup 5 = some "m" := by
  refine ⟨(board_invariants.1 [(false, 5), (true, 5), (false, 3)] alice bob rfl rfl
    (by decide)).1, ?_⟩
  exact (board_invariants.2 [(true, 9)] ⟨[(5, "m")]⟩ alice bob 5 (by decide)).1.trans
    (by decide)

/-- Claim C10 (confirmed): from a fresh board and two players with empty move
lists, after any sequence of `Board.add_move` calls the key set of the board
mapping is exactly the disjoint union of the two players' claimed-cell
lists, the players keep their markers, and every occupied cell's entry is
the marker of the player whose list contains it — so win detection (reading
only a move list) and fullness detection (reading only the mapping)
describe one and the same game state. -/
theorem board_player_sync (steps : List (Bool × Nat)) (a0 c0 : Player)
    (ha : a0.moves = []) (hc : c0.moves = []) :
    (∀ k, k ∈ (runMoves steps (⟨[]⟩, a0, c0)).1.keys ↔
        (k ∈ (runMoves steps (⟨[]⟩, a0, c0)).2.1.moves
          ∨ k ∈ (runMoves steps (⟨[]⟩, a0, c0)).2.2.moves))
    ∧ (∀ k, k ∈ (runMoves steps (⟨[]⟩, a0, c0)).2.1.moves →
        k ∉ (runMoves steps (⟨[]⟩, a0, c0)).2.2.moves)
    ∧ (runMoves steps (⟨[]⟩, a0, c0)).2.1.marker = a0.marker
    ∧ (runMoves steps (⟨[]⟩, a0, c0)).2.2.marker = c0.marker
    ∧ (∀ k, k ∈ (runMoves steps (⟨[]⟩, a0, c0)).2.1.moves →
        (runMoves steps (⟨[]⟩, a0, c0)).1.board.lookup k = some a0.marker)
    ∧ (∀ k, k ∈ (runMoves steps (⟨[]⟩, a0, c0)).2.2.moves →
        (runMoves steps (⟨[]⟩, a0, c0)).1.board.lookup k = some c0.marker) := by
  have hinv := runMoves_sync steps ⟨[]⟩ a0 c0 (syncInv_init a0 c0 ha hc)
  have hf := runMoves_frame steps ⟨[]⟩ a0 c0
  refine ⟨hinv.mem_keys, hinv.disj, hf.2.1, hf.2.2.2.2.1, ?_, ?_⟩
  · intro k hk
    have h := hinv.owner1 k hk
    rwa [hf.2.1] at h
  · intro k hk
    have h := hinv.owner2 k hk
    rwa [hf.2.2.2.2.1] at h

/-- Witness for `board_player_sync`: after X places 1 and O places 5 from a
fresh game, cell 1 carries X's marker and cell 5 carries O's. -/
theorem board_player_sync_witness :
    (runMoves [(false, 1), (true, 5)] (⟨[]⟩, alice, bob)).1.board.lookup 1 =
      some xMarker
    ∧ (runMoves [(false, 1), (true, 5)] (⟨[]⟩, alice, bob)).1.board.lookup 5 =
      some oMarker := by
  have h := board_player_sync [(false, 1), (true, 5)] alice bob rfl rfl
  exact ⟨(h.2.2.2.2.1 1 (by decide)).trans (by decide),
    (h.2.2.2.2.2 5 (by decide)).trans (by decide)⟩

end TicTacToe
